import Mathlib

/-!
# Verification of the claude-hooks pre-bash gate and plan-review core

A shallow embedding, over `List Char`, of the Go functions of the
claude-hooks repository that the specification's claims are about:

* the compound shell-command splitter `parseCompoundCommand` / `splitPipes`
  (src/unnamed/part_002, lines 638-700, identical copy in
  cmd/claude-hook/main.go);
* the pre-bash classifier loop of `handlePreBashBlocking`
  (src/unnamed/part_002, lines 435-582) together with `isProtectedBranch`;
* the plan-review helpers of internal/hooks/plan_review.go:
  `scorePlan`, `extractContentString`, `extractPlanFromTranscript`,
  `ReviewPlan`'s three-way fan-out, and `buildReviewSummary`.

Strings are modelled as `List Char` (`Str`); the Go standard-library
functions used by the code (`strings.ReplaceAll`, `strings.Split`,
`strings.Fields`, `strings.TrimSpace`, `strings.ToLower`,
`strings.Contains`, `filepath.Base`) are reproduced with their Go
semantics on that representation.
-/

set_option maxRecDepth 8192

/-- Strings are modelled as lists of Unicode code points, matching Go's
view of a `string` as a sequence of runes for the operations used here. -/
abbrev Str := List Char

/-- Coerce a Lean string literal to the `List Char` model. -/
def strL (s : String) : Str := s.data

/-- Go `unicode.IsSpace`: the White_Space code points. -/
def isSpaceGo (c : Char) : Bool :=
  c = ' ' || c = '\t' || c = '\n' || c.toNat = 11 || c.toNat = 12 || c = '\r' ||
  c.toNat = 0x85 || c.toNat = 0xA0 || c.toNat = 0x1680 ||
  (0x2000 ≤ c.toNat && c.toNat ≤ 0x200A) ||
  c.toNat = 0x2028 || c.toNat = 0x2029 || c.toNat = 0x202F ||
  c.toNat = 0x205F || c.toNat = 0x3000

/-- Go `strings.TrimSpace`: drop leading and trailing white space. -/
def trimSpace (s : Str) : Str :=
  ((s.dropWhile isSpaceGo).reverse.dropWhile isSpaceGo).reverse

/-- Helper for `fieldsGo`: the maximal non-space run at the front. -/
def takeNonSpace (s : Str) : Str := s.takeWhile (fun c => !isSpaceGo c)

/-- Helper for `fieldsGo`: drop the maximal non-space run at the front. -/
def dropNonSpace (s : Str) : Str := s.dropWhile (fun c => !isSpaceGo c)

/-- Worker for `fieldsGo`, structurally recursive on a fuel bounded below
by the list length (each step strictly shrinks the list, so the fuel-out
case is never reached from `fieldsGo`). -/
def fieldsFuel : Nat → Str → List Str
  | _, [] => []
  | 0, s => [s]
  | fuel + 1, c :: rest =>
    if isSpaceGo c then fieldsFuel fuel rest
    else (c :: takeNonSpace rest) :: fieldsFuel fuel (dropNonSpace rest)

/-- Go `strings.Fields`: split around runs of white space, no empty fields. -/
def fieldsGo (s : Str) : List Str := fieldsFuel s.length s

/-- Go `strings.ToLower`, restricted to the ASCII range (the only range the
claims exercise; Go also lowers non-ASCII letters). -/
def toLowerGo (s : Str) : Str :=
  s.map (fun c => if 'A' ≤ c ∧ c ≤ 'Z' then Char.ofNat (c.toNat + 32) else c)

/-- Go `path/filepath.Base` with the unix separator, as called on the first
token of a sub-command: strip trailing slashes, keep the last path element,
with the special cases for the empty path and for all-slash paths. -/
def goBase (path : Str) : Str :=
  if path = [] then strL "."
  else
    let p1 := (path.reverse.dropWhile (fun c => c = '/')).reverse
    let p2 := (p1.reverse.takeWhile (fun c => c ≠ '/')).reverse
    if p2 = [] then strL "/" else p2

/-- Worker for `goReplaceAll`: scan left to right, replacing each
non-overlapping occurrence of `o :: os` by `new` (Go `strings.Replace`
with n = -1). Structurally recursive on a fuel bounded below by the list
length; the fuel-out case is never reached from `goReplaceAll`. -/
def replaceAllFuel (o : Char) (os new : Str) : Nat → Str → Str
  | _, [] => []
  | 0, s => s
  | fuel + 1, c :: rest =>
    if (o :: os).isPrefixOf (c :: rest) then
      new ++ replaceAllFuel o os new fuel (rest.drop os.length)
    else
      c :: replaceAllFuel o os new fuel rest

/-- Go `strings.ReplaceAll` for a non-empty pattern (every call site in
`parseCompoundCommand` uses a non-empty pattern; Go's empty-pattern
behaviour is irrelevant here). -/
def goReplaceAll (s old new : Str) : Str :=
  match old with
  | [] => s
  | o :: os => replaceAllFuel o os new s.length s

/-- Worker for `goSplit`: cut at each non-overlapping occurrence of
`p :: ps`, scanning left to right (`acc` is the current piece, reversed).
Structurally recursive on a fuel bounded below by the list length; the
fuel-out case is never reached from `goSplit`. -/
def goSplitFuel (p : Char) (ps : Str) : Nat → Str → Str → List Str
  | _, [], acc => [acc.reverse]
  | 0, s, acc => [acc.reverse ++ s]
  | fuel + 1, c :: rest, acc =>
    if (p :: ps).isPrefixOf (c :: rest) then
      acc.reverse :: goSplitFuel p ps fuel (rest.drop ps.length) []
    else
      goSplitFuel p ps fuel rest (c :: acc)

/-- Go `strings.Split` for a non-empty separator (the only way
`parseCompoundCommand` calls it). -/
def goSplit (s sep : Str) : List Str :=
  match sep with
  | [] => [s]
  | p :: ps => goSplitFuel p ps s.length s []

/-- Go `strings.Contains` (as a Bool, via repeated prefix tests). -/
def goContains (s sub : Str) : Bool :=
  match s with
  | [] => sub.isPrefixOf []
  | _ :: t => sub.isPrefixOf s || goContains t sub

/-- `needle` occurs as a contiguous substring of `haystack`. -/
def appearsIn (needle haystack : Str) : Prop :=
  ∃ a b, haystack = a ++ needle ++ b

/-! ## The Quoted-Command Splitter (part_002 lines 638-700) -/

/-- The internal separator `"||SPLIT||"` of `parseCompoundCommand`. -/
def delimChars : Str := strL "||SPLIT||"

/-- The loop of `splitPipes` (part_002 lines 667-700): copy the input,
tracking a boolean in-quotes state with the active quote character
(`"`, `'` or backtick); a `|` outside quotes whose next character is not
`|` is replaced by `delim`, every other character is copied. -/
def splitPipesAux (delim : Str) (inQuotes : Bool) (quoteChar : Char) : Str → Str
  | [] => []
  | c :: rest =>
    if c = '"' ∨ c = '\'' ∨ c = '`' then
      if !inQuotes then c :: splitPipesAux delim true c rest
      else if c = quoteChar then c :: splitPipesAux delim false quoteChar rest
      else c :: splitPipesAux delim inQuotes quoteChar rest
    else if c = '|' then
      if !inQuotes then
        match rest with
        | '|' :: _ => c :: splitPipesAux delim inQuotes quoteChar rest
        | _ => delim ++ splitPipesAux delim inQuotes quoteChar rest
      else c :: splitPipesAux delim inQuotes quoteChar rest
    else c :: splitPipesAux delim inQuotes quoteChar rest

/-- Go `splitPipes(command, delim)`: initial state is outside quotes with
the zero rune as quote character. -/
def splitPipes (command delim : Str) : Str :=
  splitPipesAux delim false (Char.ofNat 0) command

/-- Go `parseCompoundCommand` (part_002 lines 638-665): replace `&&`,
`||`, `;` by the delimiter with plain `strings.ReplaceAll` (no quote
tracking), replace lone pipes via `splitPipes` (quote-tracking), split on
the delimiter, trim each piece, and drop empty pieces. -/
def parseCompoundCommand (command : Str) : List Str :=
  let c1 := goReplaceAll command (strL "&&") delimChars
  let c2 := goReplaceAll c1 (strL "||") delimChars
  let c3 := goReplaceAll c2 (strL ";") delimChars
  let c4 := splitPipes c3 delimChars
  ((goSplit c4 delimChars).map trimSpace).filter (fun p => !p.isEmpty)

/-! ## The pre-bash classifier (part_002 lines 435-582) -/

/-- `isProtectedBranch` (part_002 lines 117-121): exact, case-sensitive
membership in the fixed list `["master", "main"]`. -/
def isProtectedBranch (branch : Str) : Bool :=
  branch = strL "master" || branch = strL "main"

/-- The read-only external collaborators of the git-commit rule:
`getTargetWorkingDirectory` (empty when no target directory can be
confidently determined) and `getCurrentBranch` (empty when not in a git
repository or on a detached HEAD). -/
structure GitEnv where
  targetDir : Str
  branchOf : Str → Str

/-- The deny reason built for a MySQL/MariaDB sub-command
(part_002 line 462), naming the original full command and the offending
sub-command. -/
def mysqlReason (command subCmd : Str) : Str :=
  strL "MySQL commands are not allowed. You attempted to run: " ++ command ++
  strL "\n\nDetected MySQL command in: " ++ subCmd ++
  strL "\n\nPlease use the Go database connection methods instead. The codebase already has database access configured through Go.\n\nAlternatives:\n- Check existing Go code for database queries\n- Look at the model definitions in the codebase\n- Read the existing test files for schema information"

/-- The deny reason built for a `git commit` on a protected branch
(part_002 line 526), with the feature-branch remediation steps. -/
def gitReason (branch command subCmd : Str) : Str :=
  strL "Direct commits to the '" ++ branch ++
  strL "' branch are not allowed. You attempted to run: " ++ command ++
  strL "\n\nDetected git commit command in: " ++ subCmd ++
  strL "\n\nPlease create a feature branch instead:\n\n1. Create and switch to a new branch:\n   git checkout -b feature/your-feature-name\n\n2. Make your commits on the feature branch:\n   git commit -m \"your commit message\"\n\n3. Push the feature branch:\n   git push -u origin feature/your-feature-name\n\n4. Create a pull request to merge into " ++ branch

/-- One iteration of the sub-command loop of `handlePreBashBlocking`
(part_002 lines 456-572), on the already-computed token list
`parts = strings.Fields(strings.TrimSpace(subCmd))`: `some reason` models
the deny-and-exit paths, `none` the fall-through to the next sub-command.
An empty token list falls through (`if len(parts) > 0`). -/
def classifyParts (env : GitEnv) (command subCmd : Str) : List Str → Option Str
  | [] => none
  | p0 :: rest =>
    if toLowerGo (goBase p0) = strL "mysql" ∨ toLowerGo (goBase p0) = strL "mysqldump" ∨
        toLowerGo (goBase p0) = strL "mariadb" then
      some (mysqlReason command subCmd)
    else if toLowerGo (goBase p0) = strL "git" ∧ rest.head? = some (strL "commit") then
      -- `len(parts) >= 2 && parts[1] == "commit"`
      if env.targetDir = [] then none
      else if env.branchOf env.targetDir ≠ [] ∧
          isProtectedBranch (env.branchOf env.targetDir) = true then
        some (gitReason (env.branchOf env.targetDir) command subCmd)
      else none
    else none

/-- The per-sub-command classification of `handlePreBashBlocking`:
tokenize the sub-command and run `classifyParts`. -/
def checkSubCommand (env : GitEnv) (command subCmd : Str) : Option Str :=
  classifyParts env command subCmd (fieldsGo (trimSpace subCmd))

/-- The overall pre-bash gating decision. -/
inductive Decision where
  | allow : Decision
  | deny : Str → Decision
deriving DecidableEq

/-- The `for _, subCmd := range subCommands` loop of
`handlePreBashBlocking`: the first sub-command that hits a deny path
produces the decision (the Go code prints the JSON deny object and calls
`os.Exit`, so no later sub-command is examined); if every sub-command
falls through, the command is allowed. -/
def preBashLoop (env : GitEnv) (command : Str) : List Str → Decision
  | [] => Decision.allow
  | subCmd :: rest =>
    match checkSubCommand env command subCmd with
    | some reason => Decision.deny reason
    | none => preBashLoop env command rest

/-- `handlePreBashBlocking` (part_002 lines 435-582) for a Bash tool call
with a non-empty command (the earlier guards allow non-Bash tools and
empty commands without scanning): split the compound command and scan the
sub-commands in order. -/
def handlePreBashBlocking (env : GitEnv) (command : Str) : Decision :=
  preBashLoop env command (parseCompoundCommand command)


/-! ## Plan review (internal/hooks/plan_review.go) -/

/-- UTF-8 byte length: Go `len(s)` on a string. -/
def utf8Len (s : Str) : Nat := (s.map Char.utf8Size).sum

/-- `scorePlan` (plan_review.go lines 149-187): 0 for empty content or
content under 50 bytes, otherwise the sum of the heading (100),
numbered-list (20), checklist (20), "plan" (10) and "step" (5) weights. -/
def scorePlan (content : Str) : Nat :=
  if content = [] then 0
  else if utf8Len content < 50 then 0
  else
    (if goContains content (strL "## Plan") ||
        goContains content (strL "## Implementation") ||
        goContains content (strL "## Proposed Approach") then 100 else 0) +
    (if goContains content (strL "1. ") && goContains content (strL "2. ") then 20 else 0) +
    (if goContains content (strL "- [ ]") || goContains content (strL "- [x]") then 20 else 0) +
    (if goContains (toLowerGo content) (strL "plan") then 10 else 0) +
    (if goContains (toLowerGo content) (strL "step") then 5 else 0)

/-- The JSON values `encoding/json.Unmarshal` can put into the `any`
content field of a transcript entry: a string, a number, a boolean, null,
an array, or an object. -/
inductive JsonVal where
  | str : Str → JsonVal
  | num : Int → JsonVal
  | boolV : Bool → JsonVal
  | null : JsonVal
  | arr : List JsonVal → JsonVal
  | obj : List (Str × JsonVal) → JsonVal

/-- Go map lookup `m["text"]` on an unmarshalled object (keys are unique
after unmarshalling, so first-match association lookup models it). -/
def objLookup (fields : List (Str × JsonVal)) (key : Str) : Option JsonVal :=
  match fields with
  | [] => none
  | (k, v) :: rest => if k = key then some v else objLookup rest key

/-- The per-element body of `extractContentString`'s array loop: an array
element contributes its `"text"` field exactly when the element is an
object whose `"text"` field exists and is a string. -/
def textOf (item : JsonVal) : Option Str :=
  match item with
  | JsonVal.obj fields =>
    match objLookup fields (strL "text") with
    | some (JsonVal.str s) => some s
    | _ => none
  | _ => none

/-- `extractContentString` (plan_review.go lines 190-208): a string is
returned as is; an array contributes the string `"text"` fields of its
object elements, joined by newlines; every other shape yields `""`. -/
def extractContentString (content : JsonVal) : Str :=
  match content with
  | JsonVal.str s => s
  | JsonVal.arr items => List.intercalate (strL "\n") (items.filterMap textOf)
  | _ => []

/-- One parsed transcript line (`TranscriptEntry`): only the message role
and content take part in plan extraction. -/
structure TEntry where
  role : Str
  content : JsonVal

/-- The transcript as `extractPlanFromTranscript` sees it after
`strings.Split(data, "\n")`: one entry per line, `none` for the blank and
malformed lines the loop skips with `continue`. -/
abbrev Transcript := List (Option TEntry)

/-- The candidate-selection loop of `extractPlanFromTranscript`
(plan_review.go lines 117-138), carrying `bestPlan` and `bestScore`: an
assistant entry whose extracted content scores above 0 and at least the
current best replaces the running candidate. -/
def planLoop (bestPlan : Str) (bestScore : Nat) : Transcript → Str × Nat
  | [] => (bestPlan, bestScore)
  | e :: rest =>
    match e with
    | none => planLoop bestPlan bestScore rest
    | some ent =>
      if ent.role = strL "assistant" then
        if scorePlan (extractContentString ent.content) > 0 ∧
            scorePlan (extractContentString ent.content) ≥ bestScore then
          planLoop (extractContentString ent.content)
            (scorePlan (extractContentString ent.content)) rest
        else planLoop bestPlan bestScore rest
      else planLoop bestPlan bestScore rest

/-- The not-found error text of `extractPlanFromTranscript`. -/
def planNotFoundMsg : Str := strL "no plan content found in transcript"

/-- `extractPlanFromTranscript` (plan_review.go lines 103-146) after the
transcript file has been read and split into lines: run the selection
loop from an empty candidate; an empty final candidate is the not-found
error. -/
def extractPlanFromTranscript (entries : Transcript) : Except Str Str :=
  let r := planLoop [] 0 entries
  if r.1 = [] then Except.error planNotFoundMsg else Except.ok r.1

/-- The score the selection loop sees for one transcript line: 0 for a
skipped line or a non-assistant turn, the plan score of the extracted
content for an assistant turn. -/
def optScore : Option TEntry → Nat
  | none => 0
  | some ent =>
    if ent.role = strL "assistant" then scorePlan (extractContentString ent.content) else 0

/-- The candidate text the selection loop sees for one transcript line. -/
def optContent : Option TEntry → Str
  | none => []
  | some ent =>
    if ent.role = strL "assistant" then extractContentString ent.content else []

/-- The largest per-line score of a transcript. -/
def maxScores : Transcript → Nat
  | [] => 0
  | e :: rest => max (optScore e) (maxScores rest)

/-- `AIReview` (plan_review.go lines 23-28). -/
structure AIReview where
  model : Str
  feedback : Str
  error : Str
  duration : Str
deriving DecidableEq

/-- How one reviewer subprocess ended, as the `run*Review` helpers
distinguish the cases: the binary was not on the search path
(`exec.LookPath` failure text), the per-reviewer context deadline fired,
the process failed some other way (with the error text and captured
stderr), or it printed feedback and exited 0. -/
inductive RunResult where
  | notInstalled : RunResult
  | timedOut : RunResult
  | failed : Str → Str → RunResult
  | ok : Str → RunResult
deriving DecidableEq

/-- `runClaudeReview` (plan_review.go lines 231-280): outcome fields for
each way the subprocess can end; `dur` is the measured elapsed time
(`time.Since(start)`, formatted). -/
def runClaudeReview (dur : Str) (r : RunResult) : AIReview :=
  match r with
  | RunResult.notInstalled =>
    { model := strL "Claude Opus 4.5"
      feedback := strL "⚠️ Claude CLI not available - install with: npm install -g @anthropic-ai/claude-code"
      error := strL "Claude CLI not installed (npm install -g @anthropic-ai/claude-code)"
      duration := dur }
  | RunResult.timedOut =>
    { model := strL "Claude Opus 4.5"
      feedback := strL "⚠️ Claude review timed out"
      error := strL "Claude review timed out (2m)"
      duration := dur }
  | RunResult.failed e se =>
    { model := strL "Claude Opus 4.5"
      feedback := strL "⚠️ Claude review failed - see error"
      error := strL "Claude review failed: " ++ e ++ strL " - " ++ se
      duration := dur }
  | RunResult.ok out =>
    { model := strL "Claude Opus 4.5"
      feedback := trimSpace out
      error := []
      duration := dur }

/-- `runCodexReview` (plan_review.go lines 282-330). -/
def runCodexReview (dur : Str) (r : RunResult) : AIReview :=
  match r with
  | RunResult.notInstalled =>
    { model := strL "o3 (Codex)"
      feedback := strL "⚠️ Codex CLI not available - install OpenAI's Codex CLI"
      error := strL "Codex CLI not installed"
      duration := dur }
  | RunResult.timedOut =>
    { model := strL "o3 (Codex)"
      feedback := strL "⚠️ Codex review timed out"
      error := strL "Codex review timed out (2m)"
      duration := dur }
  | RunResult.failed e se =>
    { model := strL "o3 (Codex)"
      feedback := strL "⚠️ Codex review failed - see error"
      error := strL "Codex review failed: " ++ e ++ strL " - " ++ se
      duration := dur }
  | RunResult.ok out =>
    { model := strL "o3 (Codex)"
      feedback := trimSpace out
      error := []
      duration := dur }

/-- `runGeminiReview` (plan_review.go lines 332-382), with its shorter
60-second deadline. -/
def runGeminiReview (dur : Str) (r : RunResult) : AIReview :=
  match r with
  | RunResult.notInstalled =>
    { model := strL "Gemini 3 Pro"
      feedback := strL "⚠️ Gemini CLI not available - install Google's Gemini CLI"
      error := strL "Gemini CLI not installed"
      duration := dur }
  | RunResult.timedOut =>
    { model := strL "Gemini 3 Pro"
      feedback := strL "⚠️ Gemini review timed out"
      error := strL "Gemini review timed out (60s)"
      duration := dur }
  | RunResult.failed e se =>
    { model := strL "Gemini 3 Pro"
      feedback := strL "⚠️ Gemini review failed - see error"
      error := strL "Gemini review failed: " ++ e ++ strL " - " ++ se
      duration := dur }
  | RunResult.ok out =>
    { model := strL "Gemini 3 Pro"
      feedback := trimSpace out
      error := []
      duration := dur }

/-- How the three reviewer subprocesses of one `ReviewPlan` call end, and
their measured durations. Each goroutine of `ReviewPlan` owns exactly one
of these and writes exactly one slot of the result slice. -/
structure ReviewEnv where
  claude : RunResult
  codex : RunResult
  gemini : RunResult
  dClaude : Str
  dCodex : Str
  dGemini : Str

/-- The fan-out of `ReviewPlan` (plan_review.go lines 66-93): the slice
`reviews` of length 3 whose slot `i` is written only by goroutine `i`;
`wg.Wait()` joins all three before the slice is read, so the result is
exactly these three outcomes in reviewer order. -/
def runReviews (env : ReviewEnv) : List AIReview :=
  [runClaudeReview env.dClaude env.claude,
   runCodexReview env.dCodex env.codex,
   runGeminiReview env.dGemini env.gemini]

/-- Decimal digits of a Nat, as Go's `%d` renders `successCount`. -/
def natToStr (n : Nat) : Str := (toString n).data

/-- One reviewer section of `buildReviewSummary` (plan_review.go lines
404-419) without its trailing separator: status icon from the presence of
an error, the model name, the elapsed duration, the error text when
present, then the feedback. -/
def reviewSection (r : AIReview) : Str :=
  strL "### " ++ (if r.error ≠ [] then strL "⚠️" else strL "✅") ++ strL " " ++
  r.model ++ strL " (" ++ r.duration ++ strL ")\n\n" ++
  (if r.error ≠ [] then strL "*Error: " ++ r.error ++ strL "*\n\n" else []) ++
  r.feedback ++ strL "\n\n"

/-- The section loop of `buildReviewSummary`: a `---` separator after
every section but the last (`if i < len(reviews)-1`). -/
def reviewSections : List AIReview → Str
  | [] => []
  | [r] => reviewSection r
  | r :: rest => reviewSection r ++ strL "---\n\n" ++ reviewSections rest

/-- `buildReviewSummary` (plan_review.go lines 385-422): fixed header,
completed-count line over the outcomes with an empty error, separator,
then the sections in slice order. -/
def buildReviewSummary (reviews : List AIReview) : Str :=
  strL "## 🧠 AI Council Plan Review\n\n" ++
  strL "Your plan has been reviewed by three AI models. Consider their feedback before finalizing.\n\n" ++
  strL "**Reviews completed:** " ++
  natToStr (reviews.filter (fun r => r.error = [])).length ++ strL "/3\n\n" ++
  strL "---\n\n" ++
  reviewSections reviews

/-- `PlanReviewResult` (plan_review.go lines 31-34). -/
structure PlanReviewResult where
  reviews : List AIReview
  summary : Str

/-- The inputs `ReviewPlan` consults before fanning out. -/
structure PlanReviewInput where
  transcriptPath : Str
  planContent : Str

/-- `ReviewPlan` (plan_review.go lines 46-100): resolve the plan (given
content, or extraction from the transcript when a path is given), fail
when none is found, otherwise fan out to the three reviewers and
aggregate. -/
def reviewPlan (input : PlanReviewInput) (transcript : Transcript)
    (env : ReviewEnv) : Except Str PlanReviewResult :=
  let planStep : Except Str Str :=
    if input.planContent = [] ∧ input.transcriptPath ≠ [] then
      match extractPlanFromTranscript transcript with
      | Except.error e => Except.error (strL "failed to extract plan: " ++ e)
      | Except.ok p => Except.ok p
    else Except.ok input.planContent
  match planStep with
  | Except.error e => Except.error e
  | Except.ok plan =>
    if plan = [] then Except.error (strL "no plan content found to review")
    else Except.ok { reviews := runReviews env,
                     summary := buildReviewSummary (runReviews env) }


/-! ## Claim theorems -/

/-- C1 counterexample: the spec claims delimiters inside quotes are
literal text and that `echo "a && b" && mysql -u root` splits into
exactly the two sub-commands `echo "a && b"` and `mysql -u root`. On the
code, only the lone-pipe pass of `splitPipes` tracks quotes; the
`strings.ReplaceAll` passes for `&&`, `||`, `;` do not, so the quoted
`&&` is replaced too and the command does not split into those two
sub-commands. -/
theorem C1_splitter_quotes_counterexample :
    ¬ (parseCompoundCommand (strL "echo \"a && b\" && mysql -u root") =
       [strL "echo \"a && b\"", strL "mysql -u root"]) := by decide

/-- C1 amended: only a lone `|` (not part of `||`) is protected by
quoting — `echo "a | b" | mysql -u root` splits into exactly
`echo "a | b"` and `mysql -u root` — while `&&`, `||` and `;` are
replaced even inside quotes, so `echo "a && b" && mysql -u root` splits
into the seven pieces below (the quoted `&&` is replaced, and the
replacement delimiter interferes with the later `||` replacement and the
pipe pass, leaving `SPLIT` artifacts). -/
theorem C1_splitter_quotes_amended :
    parseCompoundCommand (strL "echo \"a | b\" | mysql -u root") =
      [strL "echo \"a | b\"", strL "mysql -u root"] ∧
    parseCompoundCommand (strL "echo \"a && b\" && mysql -u root") =
      [strL "echo \"a", strL "SPLIT", strL "b\" |", strL "SPLIT|", strL "SPLIT|",
       strL "SPLIT|", strL "mysql -u root"] := by
  constructor
  · decide
  · decide

/-- C5: the spec claims that for balanced-quoting commands, concatenating
the sub-commands with the original delimiters reinserted reconstructs the
original text up to whitespace trimming. Evaluating the code on the
balanced command `a && b`: the `&&` replacement inserts `||SPLIT||`, the
following `||` replacement re-replaces the `||` inside the inserted
delimiters and the pipe pass mangles the remainder, so the splitter
returns `SPLIT|` artifact pieces — no reinsertion of `&&` can rebuild
`a && b` from them. -/
theorem C5_splitter_reconstruction_failing :
    parseCompoundCommand (strL "a && b") =
      [strL "a |", strL "SPLIT|", strL "SPLIT|", strL "SPLIT|", strL "b"] ∧
    ¬ (parseCompoundCommand (strL "a && b") = [strL "a", strL "b"]) := by
  constructor
  · decide
  · decide

/-- The MySQL deny reason contains the offending sub-command verbatim. -/
theorem mysqlReason_mentions_subCmd (command subCmd : Str) :
    appearsIn subCmd (mysqlReason command subCmd) := by
  refine ⟨strL "MySQL commands are not allowed. You attempted to run: " ++ command ++
    strL "\n\nDetected MySQL command in: ",
    strL "\n\nPlease use the Go database connection methods instead. The codebase already has database access configured through Go.\n\nAlternatives:\n- Check existing Go code for database queries\n- Look at the model definitions in the codebase\n- Read the existing test files for schema information", ?_⟩
  simp [mysqlReason, List.append_assoc]

/-- The MySQL deny reason contains the original full command verbatim. -/
theorem mysqlReason_mentions_command (command subCmd : Str) :
    appearsIn command (mysqlReason command subCmd) := by
  refine ⟨strL "MySQL commands are not allowed. You attempted to run: ",
    strL "\n\nDetected MySQL command in: " ++ subCmd ++
    strL "\n\nPlease use the Go database connection methods instead. The codebase already has database access configured through Go.\n\nAlternatives:\n- Check existing Go code for database queries\n- Look at the model definitions in the codebase\n- Read the existing test files for schema information", ?_⟩
  simp [mysqlReason, List.append_assoc]

/-- The branch-protection deny reason contains the feature-branch
remediation text. -/
theorem gitReason_mentions_remediation (branch command subCmd : Str) :
    appearsIn (strL "Please create a feature branch instead") (gitReason branch command subCmd) := by
  have hsplit : strL "\n\n" ++ (strL "Please create a feature branch instead" ++
      strL ":\n\n1. Create and switch to a new branch:\n   git checkout -b feature/your-feature-name\n\n2. Make your commits on the feature branch:\n   git commit -m \"your commit message\"\n\n3. Push the feature branch:\n   git push -u origin feature/your-feature-name\n\n4. Create a pull request to merge into ") =
      strL "\n\nPlease create a feature branch instead:\n\n1. Create and switch to a new branch:\n   git checkout -b feature/your-feature-name\n\n2. Make your commits on the feature branch:\n   git commit -m \"your commit message\"\n\n3. Push the feature branch:\n   git push -u origin feature/your-feature-name\n\n4. Create a pull request to merge into " := by
    decide
  refine ⟨strL "Direct commits to the '" ++ branch ++
    strL "' branch are not allowed. You attempted to run: " ++ command ++
    strL "\n\nDetected git commit command in: " ++ subCmd ++ strL "\n\n",
    strL ":\n\n1. Create and switch to a new branch:\n   git checkout -b feature/your-feature-name\n\n2. Make your commits on the feature branch:\n   git commit -m \"your commit message\"\n\n3. Push the feature branch:\n   git push -u origin feature/your-feature-name\n\n4. Create a pull request to merge into " ++ branch, ?_⟩
  rw [gitReason, ← hsplit]
  simp [List.append_assoc]

/-- C2: a sub-command whose executable name (first token's final path
segment, lower-cased) is `mysql`, `mysqldump` or `mariadb` is classified
DENY by the per-sub-command check, with the reason naming the offending
sub-command and the original full command. -/
theorem C2_mysql_denylist (env : GitEnv) (command subCmd p0 : Str) (rest : List Str)
    (hparts : fieldsGo (trimSpace subCmd) = p0 :: rest)
    (hexe : toLowerGo (goBase p0) = strL "mysql" ∨ toLowerGo (goBase p0) = strL "mysqldump" ∨
            toLowerGo (goBase p0) = strL "mariadb") :
    checkSubCommand env command subCmd = some (mysqlReason command subCmd) ∧
    appearsIn subCmd (mysqlReason command subCmd) ∧
    appearsIn command (mysqlReason command subCmd) := by
  refine ⟨?_, mysqlReason_mentions_subCmd command subCmd, mysqlReason_mentions_command command subCmd⟩
  unfold checkSubCommand
  rw [hparts]
  simp only [classifyParts]
  rw [if_pos hexe]

/-- C2 witness: the case-insensitive match `MySQL -u root` is denied with
a reason naming the sub-command and the full command. -/
theorem C2_mysql_denylist_witness :
    checkSubCommand ⟨[], fun _ => []⟩ (strL "MySQL -u root") (strL "MySQL -u root") =
      some (mysqlReason (strL "MySQL -u root") (strL "MySQL -u root")) ∧
    appearsIn (strL "MySQL -u root") (mysqlReason (strL "MySQL -u root") (strL "MySQL -u root")) ∧
    appearsIn (strL "MySQL -u root") (mysqlReason (strL "MySQL -u root") (strL "MySQL -u root")) := by
  exact C2_mysql_denylist ⟨[], fun _ => []⟩ (strL "MySQL -u root") (strL "MySQL -u root")
    (strL "MySQL") [strL "-u", strL "root"] (by decide) (Or.inl (by decide))

/-- The scan loop allows exactly when every sub-command falls through. -/
theorem preBashLoop_allow_iff (env : GitEnv) (command : Str) (l : List Str) :
    preBashLoop env command l = Decision.allow ↔
    ∀ sc ∈ l, checkSubCommand env command sc = none := by
  induction l with
  | nil => simp [preBashLoop]
  | cons sc rest ih =>
    cases h : checkSubCommand env command sc with
    | none =>
      simp only [preBashLoop, h]
      constructor
      · intro hl x hx
        rcases List.mem_cons.mp hx with hx | hx
        · rw [hx]; exact h
        · exact (ih.mp hl) x hx
      · intro hall
        exact ih.mpr (fun x hx => hall x (List.mem_cons_of_mem _ hx))
    | some r =>
      apply iff_of_false
      · simp [preBashLoop, h]
      · intro hall
        have h2 := hall sc (List.mem_cons_self _ _)
        rw [h] at h2
        exact Option.noConfusion h2

/-- The scan loop denies with reason `r` exactly when some sub-command
triggers that deny and every sub-command before it falls through: the
first deny wins. -/
theorem preBashLoop_deny_iff (env : GitEnv) (command : Str) (l : List Str) (r : Str) :
    preBashLoop env command l = Decision.deny r ↔
    ∃ l1 sc l2, l = l1 ++ sc :: l2 ∧
      (∀ x ∈ l1, checkSubCommand env command x = none) ∧
      checkSubCommand env command sc = some r := by
  induction l with
  | nil =>
    apply iff_of_false
    · simp [preBashLoop]
    · rintro ⟨l1, sc, l2, heq, -, -⟩
      cases l1 <;> simp at heq
  | cons sc0 rest ih =>
    cases h : checkSubCommand env command sc0 with
    | none =>
      simp only [preBashLoop, h]
      rw [ih]
      constructor
      · rintro ⟨l1, sc, l2, heq, hnone, hsome⟩
        refine ⟨sc0 :: l1, sc, l2, by rw [heq]; rfl, ?_, hsome⟩
        intro x hx
        rcases List.mem_cons.mp hx with hx | hx
        · rw [hx]; exact h
        · exact hnone x hx
      · rintro ⟨l1, sc, l2, heq, hnone, hsome⟩
        cases l1 with
        | nil =>
          simp only [List.nil_append, List.cons.injEq] at heq
          rw [heq.1] at h
          rw [h] at hsome
          exact Option.noConfusion hsome
        | cons y l1t =>
          simp only [List.cons_append, List.cons.injEq] at heq
          exact ⟨l1t, sc, l2, heq.2, fun x hx => hnone x (List.mem_cons_of_mem _ hx), hsome⟩
    | some r0 =>
      simp only [preBashLoop, h]
      constructor
      · intro hd
        have hr : r0 = r := by simpa using hd
        refine ⟨[], sc0, rest, rfl, ?_, ?_⟩
        · intro x hx
          cases hx
        · rw [h, hr]
      · rintro ⟨l1, sc, l2, heq, hnone, hsome⟩
        cases l1 with
        | nil =>
          simp only [List.nil_append, List.cons.injEq] at heq
          rw [heq.1] at h
          rw [h] at hsome
          injection hsome with hr
          rw [hr]
        | cons y l1t =>
          simp only [List.cons_append, List.cons.injEq] at heq
          have hy := hnone y (List.mem_cons_self _ _)
          rw [heq.1] at h
          rw [hy] at h
          exact Option.noConfusion h

/-- C3: the overall pre-bash gating result is ALLOW exactly when every
sub-command of the compound command individually falls through, and it is
DENY with reason `r` exactly when some sub-command triggers that deny
while all sub-commands before it (left-to-right) fall through — the first
deny determines the result. -/
theorem C3_gating_first_deny_wins (env : GitEnv) (command : Str) :
    (handlePreBashBlocking env command = Decision.allow ↔
      ∀ sc ∈ parseCompoundCommand command, checkSubCommand env command sc = none) ∧
    (∀ r, handlePreBashBlocking env command = Decision.deny r ↔
      ∃ l1 sc l2, parseCompoundCommand command = l1 ++ sc :: l2 ∧
        (∀ x ∈ l1, checkSubCommand env command x = none) ∧
        checkSubCommand env command sc = some r) :=
  ⟨preBashLoop_allow_iff env command (parseCompoundCommand command),
   fun r => preBashLoop_deny_iff env command (parseCompoundCommand command) r⟩

/-- C4: for a sub-command whose first token is `git` and second token is
`commit`: when a target working directory is resolved and the queried
branch is exactly `main` or `master`, the per-sub-command check is DENY
with the feature-branch remediation reason; when no target directory can
be determined, or the branch is empty (detached HEAD), or the branch is
not in the protected set (so `Main` and `feature/x` in particular), the
check falls through and scanning continues. -/
theorem C4_git_commit_branch_protection (env : GitEnv) (command subCmd : Str)
    (rest : List Str)
    (hparts : fieldsGo (trimSpace subCmd) = strL "git" :: strL "commit" :: rest) :
    (env.targetDir ≠ [] →
      (env.branchOf env.targetDir = strL "main" ∨ env.branchOf env.targetDir = strL "master") →
      checkSubCommand env command subCmd =
        some (gitReason (env.branchOf env.targetDir) command subCmd) ∧
      appearsIn (strL "Please create a feature branch instead")
        (gitReason (env.branchOf env.targetDir) command subCmd)) ∧
    (env.targetDir = [] → checkSubCommand env command subCmd = none) ∧
    (env.targetDir ≠ [] → env.branchOf env.targetDir = [] →
      checkSubCommand env command subCmd = none) ∧
    (env.targetDir ≠ [] → isProtectedBranch (env.branchOf env.targetDir) = false →
      checkSubCommand env command subCmd = none) := by
  have hstep : checkSubCommand env command subCmd =
      (if env.targetDir = [] then none
       else if env.branchOf env.targetDir ≠ [] ∧
           isProtectedBranch (env.branchOf env.targetDir) = true then
         some (gitReason (env.branchOf env.targetDir) command subCmd)
       else none) := by
    unfold checkSubCommand
    rw [hparts]
    simp only [classifyParts]
    rw [if_neg (by decide), if_pos ⟨by decide, rfl⟩]
  refine ⟨?_, ?_, ?_, ?_⟩
  · intro hdir hbr
    have hne : env.branchOf env.targetDir ≠ [] := by
      rcases hbr with hbr | hbr <;> rw [hbr] <;> decide
    have hprot : isProtectedBranch (env.branchOf env.targetDir) = true := by
      rcases hbr with hbr | hbr <;> rw [hbr] <;> decide
    rw [hstep, if_neg hdir, if_pos ⟨hne, hprot⟩]
    exact ⟨rfl, gitReason_mentions_remediation (env.branchOf env.targetDir) command subCmd⟩
  · intro hdir
    rw [hstep, if_pos hdir]
  · intro hdir hempty
    rw [hstep, if_neg hdir, if_neg ?_]
    intro hcon
    exact hcon.1 hempty
  · intro hdir hnotprot
    rw [hstep, if_neg hdir, if_neg ?_]
    intro hcon
    rw [hnotprot] at hcon
    exact Bool.noConfusion hcon.2

/-- C4 witness: `git commit` is denied on branch `main` with the
remediation text, and allowed when the directory is undetermined, on a
detached HEAD, on branch `Main`, and on branch `feature/x`. -/
theorem C4_git_commit_branch_protection_witness :
    (checkSubCommand ⟨strL "/repo", fun _ => strL "main"⟩ (strL "git commit") (strL "git commit") =
      some (gitReason (strL "main") (strL "git commit") (strL "git commit")) ∧
     appearsIn (strL "Please create a feature branch instead")
       (gitReason (strL "main") (strL "git commit") (strL "git commit"))) ∧
    checkSubCommand ⟨[], fun _ => strL "main"⟩ (strL "git commit") (strL "git commit") = none ∧
    checkSubCommand ⟨strL "/repo", fun _ => []⟩ (strL "git commit") (strL "git commit") = none ∧
    checkSubCommand ⟨strL "/repo", fun _ => strL "Main"⟩ (strL "git commit") (strL "git commit") = none ∧
    checkSubCommand ⟨strL "/repo", fun _ => strL "feature/x"⟩ (strL "git commit") (strL "git commit") = none := by
  have hp : fieldsGo (trimSpace (strL "git commit")) = strL "git" :: strL "commit" :: [] := by
    decide
  refine ⟨?_, ?_, ?_, ?_, ?_⟩
  · exact (C4_git_commit_branch_protection ⟨strL "/repo", fun _ => strL "main"⟩
      (strL "git commit") (strL "git commit") [] hp).1 (by decide) (Or.inl rfl)
  · exact (C4_git_commit_branch_protection ⟨[], fun _ => strL "main"⟩
      (strL "git commit") (strL "git commit") [] hp).2.1 rfl
  · exact (C4_git_commit_branch_protection ⟨strL "/repo", fun _ => []⟩
      (strL "git commit") (strL "git commit") [] hp).2.2.1 (by decide) rfl
  · exact (C4_git_commit_branch_protection ⟨strL "/repo", fun _ => strL "Main"⟩
      (strL "git commit") (strL "git commit") [] hp).2.2.2 (by decide) (by decide)
  · exact (C4_git_commit_branch_protection ⟨strL "/repo", fun _ => strL "feature/x"⟩
      (strL "git commit") (strL "git commit") [] hp).2.2.2 (by decide) (by decide)

/-- Substring occurrence is transitive along substring inclusion. -/
theorem appearsIn_trans (n x y : Str) (h1 : appearsIn n x) (h2 : appearsIn x y) :
    appearsIn n y := by
  rcases h1 with ⟨a, b, rfl⟩
  rcases h2 with ⟨c, d, rfl⟩
  exact ⟨c ++ a, b ++ d, by simp [List.append_assoc]⟩

/-- C6: the reviewer fan-out always produces exactly three outcomes, in
reviewer order; a successful `ReviewPlan` returns exactly them; slot `i`
is determined by reviewer `i`'s run alone (each goroutine owns its own
slot, so one reviewer's failure or timeout never removes or alters
another reviewer's outcome); and when all three external tools are absent
every outcome has a non-empty error and its feedback contains
installation guidance. -/
theorem C6_fanout_three_outcomes (env : ReviewEnv) (input : PlanReviewInput)
    (transcript : Transcript) :
    (runReviews env).length = 3 ∧
    (∀ res, reviewPlan input transcript env = Except.ok res → res.reviews = runReviews env) ∧
    (runReviews env).get? 0 = some (runClaudeReview env.dClaude env.claude) ∧
    (runReviews env).get? 1 = some (runCodexReview env.dCodex env.codex) ∧
    (runReviews env).get? 2 = some (runGeminiReview env.dGemini env.gemini) ∧
    (env.claude = RunResult.notInstalled → env.codex = RunResult.notInstalled →
      env.gemini = RunResult.notInstalled →
      ∀ r ∈ runReviews env, r.error ≠ [] ∧ appearsIn (strL "install") r.feedback) := by
  refine ⟨rfl, ?_, rfl, rfl, rfl, ?_⟩
  · intro res hres
    unfold reviewPlan at hres
    rcases hok : (if input.planContent = [] ∧ input.transcriptPath ≠ [] then
        match extractPlanFromTranscript transcript with
        | Except.error e => Except.error (strL "failed to extract plan: " ++ e)
        | Except.ok p => Except.ok p
      else Except.ok input.planContent) with he | hplan
    · rw [hok] at hres
      exact Except.noConfusion hres
    · rw [hok] at hres
      dsimp only [] at hres
      by_cases hp : hplan = []
      · rw [if_pos hp] at hres
        exact Except.noConfusion hres
      · rw [if_neg hp] at hres
        injection hres with hres
        rw [← hres]
  · intro h1 h2 h3 r hr
    simp only [runReviews, h1, h2, h3, List.mem_cons, List.not_mem_nil, or_false] at hr
    rcases hr with hr | hr | hr
    · rw [hr]
      constructor
      · show strL "Claude CLI not installed (npm install -g @anthropic-ai/claude-code)" ≠ []
        decide
      · refine ⟨strL "⚠️ Claude CLI not available - ",
          strL " with: npm install -g @anthropic-ai/claude-code", ?_⟩
        show strL "⚠️ Claude CLI not available - install with: npm install -g @anthropic-ai/claude-code" =
          strL "⚠️ Claude CLI not available - " ++ strL "install" ++
          strL " with: npm install -g @anthropic-ai/claude-code"
        decide
    · rw [hr]
      constructor
      · show strL "Codex CLI not installed" ≠ []
        decide
      · refine ⟨strL "⚠️ Codex CLI not available - ",
          strL " OpenAI's Codex CLI", ?_⟩
        show strL "⚠️ Codex CLI not available - install OpenAI's Codex CLI" =
          strL "⚠️ Codex CLI not available - " ++ strL "install" ++ strL " OpenAI's Codex CLI"
        decide
    · rw [hr]
      constructor
      · show strL "Gemini CLI not installed" ≠ []
        decide
      · refine ⟨strL "⚠️ Gemini CLI not available - ",
          strL " Google's Gemini CLI", ?_⟩
        show strL "⚠️ Gemini CLI not available - install Google's Gemini CLI" =
          strL "⚠️ Gemini CLI not available - " ++ strL "install" ++ strL " Google's Gemini CLI"
        decide

/-- C6 witness: with no tool installed, the fan-out still returns three
outcomes, each failed with installation guidance in its feedback. -/
theorem C6_fanout_three_outcomes_witness :
    (runReviews ⟨RunResult.notInstalled, RunResult.notInstalled, RunResult.notInstalled,
      strL "0s", strL "0s", strL "0s"⟩).length = 3 ∧
    (∀ r ∈ runReviews ⟨RunResult.notInstalled, RunResult.notInstalled, RunResult.notInstalled,
      strL "0s", strL "0s", strL "0s"⟩, r.error ≠ [] ∧ appearsIn (strL "install") r.feedback) := by
  have h := C6_fanout_three_outcomes
    ⟨RunResult.notInstalled, RunResult.notInstalled, RunResult.notInstalled,
      strL "0s", strL "0s", strL "0s"⟩ ⟨[], strL "plan"⟩ []
  exact ⟨h.1, h.2.2.2.2.2 rfl rfl rfl⟩

/-- Each reviewer's feedback text occurs inside its own report section. -/
theorem feedback_in_section (r : AIReview) : appearsIn r.feedback (reviewSection r) := by
  refine ⟨strL "### " ++ (if r.error ≠ [] then strL "⚠️" else strL "✅") ++ strL " " ++
    r.model ++ strL " (" ++ r.duration ++ strL ")\n\n" ++
    (if r.error ≠ [] then strL "*Error: " ++ r.error ++ strL "*\n\n" else []),
    strL "\n\n", ?_⟩
  simp [reviewSection, List.append_assoc]

/-- C7: the three-outcome report of `buildReviewSummary` is the fixed
header, the completed-count line counting exactly the outcomes with an
empty error out of three, and then the three reviewer sections in slice
(reviewer) order, each section headed by the status icon derived from the
presence of an error and by the elapsed duration, showing the error text
when present and the feedback text; every reviewer's feedback occurs in
the report. In particular, for one timed-out reviewer between two
successes the count reads 2/3 and the report carries both successful
feedbacks and the timeout notice. -/
theorem C7_review_aggregation (r0 r1 r2 : AIReview) :
    buildReviewSummary [r0, r1, r2] =
      strL "## 🧠 AI Council Plan Review\n\n" ++
      strL "Your plan has been reviewed by three AI models. Consider their feedback before finalizing.\n\n" ++
      strL "**Reviews completed:** " ++
      natToStr ((if r0.error = [] then 1 else 0) + (if r1.error = [] then 1 else 0) +
        (if r2.error = [] then 1 else 0)) ++ strL "/3\n\n" ++ strL "---\n\n" ++
      reviewSection r0 ++ strL "---\n\n" ++ reviewSection r1 ++ strL "---\n\n" ++
      reviewSection r2 ∧
    (∀ r : AIReview, reviewSection r =
      strL "### " ++ (if r.error = [] then strL "✅" else strL "⚠️") ++ strL " " ++
      r.model ++ strL " (" ++ r.duration ++ strL ")\n\n" ++
      (if r.error = [] then [] else strL "*Error: " ++ r.error ++ strL "*\n\n") ++
      r.feedback ++ strL "\n\n") ∧
    appearsIn r0.feedback (buildReviewSummary [r0, r1, r2]) ∧
    appearsIn r1.feedback (buildReviewSummary [r0, r1, r2]) ∧
    appearsIn r2.feedback (buildReviewSummary [r0, r1, r2]) ∧
    (goContains (buildReviewSummary
        [runClaudeReview (strL "5s") (RunResult.ok (strL "LGTM A")),
         runCodexReview (strL "2m0s") RunResult.timedOut,
         runGeminiReview (strL "7s") (RunResult.ok (strL "LGTM B"))])
        (strL "**Reviews completed:** 2/3") = true ∧
     goContains (buildReviewSummary
        [runClaudeReview (strL "5s") (RunResult.ok (strL "LGTM A")),
         runCodexReview (strL "2m0s") RunResult.timedOut,
         runGeminiReview (strL "7s") (RunResult.ok (strL "LGTM B"))])
        (strL "LGTM A") = true ∧
     goContains (buildReviewSummary
        [runClaudeReview (strL "5s") (RunResult.ok (strL "LGTM A")),
         runCodexReview (strL "2m0s") RunResult.timedOut,
         runGeminiReview (strL "7s") (RunResult.ok (strL "LGTM B"))])
        (strL "LGTM B") = true ∧
     goContains (buildReviewSummary
        [runClaudeReview (strL "5s") (RunResult.ok (strL "LGTM A")),
         runCodexReview (strL "2m0s") RunResult.timedOut,
         runGeminiReview (strL "7s") (RunResult.ok (strL "LGTM B"))])
        (strL "⚠️ Codex review timed out") = true) := by
  have hcount : ([r0, r1, r2].filter (fun r => r.error = [])).length =
      (if r0.error = [] then 1 else 0) + (if r1.error = [] then 1 else 0) +
      (if r2.error = [] then 1 else 0) := by
    by_cases e0 : r0.error = [] <;> by_cases e1 : r1.error = [] <;>
      by_cases e2 : r2.error = [] <;>
      simp [List.filter, e0, e1, e2]
  have hsum : buildReviewSummary [r0, r1, r2] =
      strL "## 🧠 AI Council Plan Review\n\n" ++
      strL "Your plan has been reviewed by three AI models. Consider their feedback before finalizing.\n\n" ++
      strL "**Reviews completed:** " ++
      natToStr ((if r0.error = [] then 1 else 0) + (if r1.error = [] then 1 else 0) +
        (if r2.error = [] then 1 else 0)) ++ strL "/3\n\n" ++ strL "---\n\n" ++
      reviewSection r0 ++ strL "---\n\n" ++ reviewSection r1 ++ strL "---\n\n" ++
      reviewSection r2 := by
    rw [buildReviewSummary, hcount]
    simp [reviewSections, List.append_assoc]
  refine ⟨hsum, ?_, ?_, ?_, ?_, by decide, by decide, by decide, by decide⟩
  · intro r
    by_cases h : r.error = [] <;> simp [reviewSection, h]
  · refine appearsIn_trans _ _ _ (feedback_in_section r0) ?_
    refine ⟨strL "## 🧠 AI Council Plan Review\n\n" ++
      strL "Your plan has been reviewed by three AI models. Consider their feedback before finalizing.\n\n" ++
      strL "**Reviews completed:** " ++
      natToStr ((if r0.error = [] then 1 else 0) + (if r1.error = [] then 1 else 0) +
        (if r2.error = [] then 1 else 0)) ++ strL "/3\n\n" ++ strL "---\n\n",
      strL "---\n\n" ++ reviewSection r1 ++ strL "---\n\n" ++ reviewSection r2, ?_⟩
    rw [hsum]
    simp [List.append_assoc]
  · refine appearsIn_trans _ _ _ (feedback_in_section r1) ?_
    refine ⟨strL "## 🧠 AI Council Plan Review\n\n" ++
      strL "Your plan has been reviewed by three AI models. Consider their feedback before finalizing.\n\n" ++
      strL "**Reviews completed:** " ++
      natToStr ((if r0.error = [] then 1 else 0) + (if r1.error = [] then 1 else 0) +
        (if r2.error = [] then 1 else 0)) ++ strL "/3\n\n" ++ strL "---\n\n" ++
      reviewSection r0 ++ strL "---\n\n",
      strL "---\n\n" ++ reviewSection r2, ?_⟩
    rw [hsum]
    simp [List.append_assoc]
  · refine appearsIn_trans _ _ _ (feedback_in_section r2) ?_
    refine ⟨strL "## 🧠 AI Council Plan Review\n\n" ++
      strL "Your plan has been reviewed by three AI models. Consider their feedback before finalizing.\n\n" ++
      strL "**Reviews completed:** " ++
      natToStr ((if r0.error = [] then 1 else 0) + (if r1.error = [] then 1 else 0) +
        (if r2.error = [] then 1 else 0)) ++ strL "/3\n\n" ++ strL "---\n\n" ++
      reviewSection r0 ++ strL "---\n\n" ++ reviewSection r1 ++ strL "---\n\n",
      [], ?_⟩
    rw [hsum]
    simp [List.append_assoc]

/-- C8 counterexample: the spec claims every text shorter than 50
characters scores 0. The length test in `scorePlan` is Go `len(content)`,
a UTF-8 byte count, so this 19-character text (52 bytes, with a heading
marker and the keyword) scores 110, not 0. -/
theorem C8_short_text_counterexample :
    (strL "## Plan 🙂🙂🙂🙂🙂🙂🙂🙂🙂🙂🙂").length = 19 ∧
    scorePlan (strL "## Plan 🙂🙂🙂🙂🙂🙂🙂🙂🙂🙂🙂") = 110 := by
  constructor
  · decide
  · decide

/-- C8 amended: every text shorter than 50 UTF-8 bytes (Go
`len(content) < 50`) scores 0, regardless of keywords or structural
markers. -/
theorem C8_short_text_amended (content : Str) (h : utf8Len content < 50) :
    scorePlan content = 0 := by
  unfold scorePlan
  by_cases hc : content = []
  · rw [if_pos hc]
  · rw [if_neg hc, if_pos h]

/-- C8 witness: the conversational filler scores 0. -/
theorem C8_short_text_amended_witness :
    utf8Len (strL "Now let's plan.") < 50 ∧ scorePlan (strL "Now let's plan.") = 0 :=
  ⟨by decide, C8_short_text_amended (strL "Now let's plan.") (by decide)⟩

/-- Every per-line score is bounded by the transcript's best score. -/
theorem optScore_le_maxScores (l : Transcript) :
    ∀ e ∈ l, optScore e ≤ maxScores l := by
  induction l with
  | nil => intro e he; cases he
  | cons x rest ih =>
    intro e he
    rcases List.mem_cons.mp he with he | he
    · rw [he, maxScores]
      exact Nat.le_max_left _ _
    · exact le_trans (ih e he) (by rw [maxScores]; exact Nat.le_max_right _ _)

/-- The best score is 0 exactly when every per-line score is 0. -/
theorem maxScores_eq_zero_iff (l : Transcript) :
    maxScores l = 0 ↔ ∀ e ∈ l, optScore e = 0 := by
  induction l with
  | nil => simp [maxScores]
  | cons x rest ih =>
    rw [maxScores]
    constructor
    · intro h e he
      rcases List.mem_cons.mp he with he | he
      · rw [he]; omega
      · exact (ih.mp (by omega)) e he
    · intro h
      have hx := h x (List.mem_cons_self _ _)
      have hr := ih.mpr (fun e he => h e (List.mem_cons_of_mem _ he))
      omega

/-- One step of the selection loop, uniformly over line shapes: the
candidate is replaced exactly when the line's score is positive and at
least the running best. -/
theorem planLoop_step (bp : Str) (bs : Nat) (e : Option TEntry) (rest : Transcript) :
    planLoop bp bs (e :: rest) =
      if 0 < optScore e ∧ bs ≤ optScore e then planLoop (optContent e) (optScore e) rest
      else planLoop bp bs rest := by
  cases e with
  | none => simp [planLoop, optScore]
  | some ent =>
    by_cases hrole : ent.role = strL "assistant"
    · simp only [planLoop, optScore, optContent, hrole, if_pos]
    · simp [planLoop, optScore, optContent, hrole]

/-- The head and tail bounds of the transcript's best score, with the
fact that the maximum is attained on one side. -/
theorem maxScores_cons_facts (e : Option TEntry) (rest : Transcript) :
    optScore e ≤ maxScores (e :: rest) ∧ maxScores rest ≤ maxScores (e :: rest) ∧
    (maxScores (e :: rest) = optScore e ∨ maxScores (e :: rest) = maxScores rest) := by
  rw [maxScores]
  exact ⟨Nat.le_max_left _ _, Nat.le_max_right _ _, max_choice _ _⟩

/-- Invariant of the selection loop: when no line has a positive score
at least the initial best, the initial candidate is kept; otherwise the
selected candidate comes from the last line attaining the transcript's
best score (a later line with an equal score overwrites an earlier one),
with every later line scoring strictly below it. -/
theorem planLoop_spec (l : Transcript) : ∀ bp : Str, ∀ bs : Nat,
    (maxScores l < bs ∨ maxScores l = 0 → (planLoop bp bs l).1 = bp) ∧
    (bs ≤ maxScores l ∧ 0 < maxScores l →
      ∃ l1 e l2, l = l1 ++ e :: l2 ∧ optScore e = maxScores l ∧
        (planLoop bp bs l).1 = optContent e ∧
        ∀ x ∈ l2, optScore x < maxScores l) := by
  induction l with
  | nil =>
    intro bp bs
    refine ⟨fun _ => rfl, ?_⟩
    rintro ⟨-, h0⟩
    rw [maxScores] at h0
    omega
  | cons e rest ih =>
    intro bp bs
    obtain ⟨hf1, hf2, hf3⟩ := maxScores_cons_facts e rest
    rw [planLoop_step]
    by_cases hcond : 0 < optScore e ∧ bs ≤ optScore e
    · rw [if_pos hcond]
      obtain ⟨ih2, ih3⟩ := ih (optContent e) (optScore e)
      refine ⟨?_, ?_⟩
      · intro hlt
        exfalso
        rcases hlt with hlt | hlt <;> omega
      · rintro ⟨hbs, hpos⟩
        by_cases hMs : optScore e ≤ maxScores rest
        · have hM0 : 0 < maxScores rest := by omega
          obtain ⟨l1, x, l2, hsplit, hscore, hplan, hlast⟩ := ih3 ⟨hMs, hM0⟩
          have hCB : maxScores (e :: rest) = maxScores rest := by omega
          have hxc : optScore x = maxScores (e :: rest) := by rw [hscore, hCB]
          refine ⟨e :: l1, x, l2, by rw [hsplit]; rfl, hxc, hplan, ?_⟩
          intro y hy
          have := hlast y hy
          omega
        · push_neg at hMs
          have hkeep : (planLoop (optContent e) (optScore e) rest).1 = optContent e :=
            ih2 (Or.inl hMs)
          have hCs : optScore e = maxScores (e :: rest) := by omega
          refine ⟨[], e, rest, rfl, hCs, hkeep, ?_⟩
          intro y hy
          have := optScore_le_maxScores rest y hy
          omega
    · rw [if_neg hcond]
      obtain ⟨ih2, ih3⟩ := ih bp bs
      have hside : optScore e = 0 ∨ optScore e < bs := by
        by_cases h0 : 0 < optScore e
        · right
          by_cases hb : bs ≤ optScore e
          · exact absurd ⟨h0, hb⟩ hcond
          · omega
        · left; omega
      refine ⟨?_, ?_⟩
      · intro hlt
        apply ih2
        rcases hlt with hlt | hlt <;> omega
      · rintro ⟨hbs, hpos⟩
        have hCB : maxScores (e :: rest) = maxScores rest := by
          rcases hf3 with hC | hC
          · exfalso
            rcases hside with h0 | hlt
            · rw [hC, h0] at hpos
              exact Nat.lt_irrefl 0 hpos
            · rw [hC] at hbs
              exact Nat.lt_irrefl _ (Nat.lt_of_lt_of_le hlt hbs)
          · exact hC
        have hM : bs ≤ maxScores rest ∧ 0 < maxScores rest := by
          rw [← hCB]
          exact ⟨hbs, hpos⟩
        obtain ⟨l1, x, l2, hsplit, hscore, hplan, hlast⟩ := ih3 hM
        have hxc : optScore x = maxScores (e :: rest) := by rw [hscore, hCB]
        refine ⟨e :: l1, x, l2, by rw [hsplit]; rfl, hxc, hplan, ?_⟩
        intro y hy
        rw [hCB]
        exact hlast y hy

/-- A line with a positive score is an assistant turn whose extracted
content is non-empty and is the line's candidate text. -/
theorem optScore_pos_structure (e : Option TEntry) (h : 0 < optScore e) :
    ∃ ent, e = some ent ∧ ent.role = strL "assistant" ∧
      optContent e = extractContentString ent.content ∧
      optScore e = scorePlan (extractContentString ent.content) ∧
      extractContentString ent.content ≠ [] := by
  cases e with
  | none =>
    rw [optScore] at h
    exact absurd h (by omega)
  | some ent =>
    by_cases hrole : ent.role = strL "assistant"
    · refine ⟨ent, rfl, hrole, by rw [optContent, if_pos hrole], by rw [optScore, if_pos hrole], ?_⟩
      intro hnil
      rw [optScore, if_pos hrole, hnil] at h
      exact absurd h (by decide)
    · rw [optScore, if_neg hrole] at h
      exact absurd h (by omega)

/-- The score a non-skipped assistant line contributes is its plan score. -/
theorem optScore_of_assistant (ent : TEntry) (h : ent.role = strL "assistant") :
    optScore (some ent) = scorePlan (extractContentString ent.content) := by
  rw [optScore, if_pos h]

/-- C9: the transcript selector scans the turns in order and keeps a turn
exactly when its score is positive and at least the running best, so a
later turn with an equal score overwrites an earlier one; the result is
the not-found error exactly when no assistant turn scores above 0, and
otherwise the retained text: the content of the last assistant turn
attaining the maximal score, every later assistant turn scoring strictly
less, and no assistant turn scoring more. -/
theorem C9_transcript_plan_selector (entries : Transcript) :
    (extractPlanFromTranscript entries = Except.error planNotFoundMsg ↔
      ∀ ent : TEntry, some ent ∈ entries → ent.role = strL "assistant" →
        scorePlan (extractContentString ent.content) = 0) ∧
    (∀ t, extractPlanFromTranscript entries = Except.ok t →
      ∃ l1 ent l2, entries = l1 ++ some ent :: l2 ∧ ent.role = strL "assistant" ∧
        extractContentString ent.content = t ∧ 0 < scorePlan t ∧
        (∀ ent2 : TEntry, some ent2 ∈ entries → ent2.role = strL "assistant" →
          scorePlan (extractContentString ent2.content) ≤ scorePlan t) ∧
        (∀ ent2 : TEntry, some ent2 ∈ l2 → ent2.role = strL "assistant" →
          scorePlan (extractContentString ent2.content) < scorePlan t)) := by
  obtain ⟨hkeep, hsel⟩ := planLoop_spec entries [] 0
  by_cases hM : maxScores entries = 0
  · have hnil : (planLoop [] 0 entries).1 = [] := hkeep (Or.inr hM)
    have herr : extractPlanFromTranscript entries = Except.error planNotFoundMsg := by
      rw [extractPlanFromTranscript, if_pos hnil]
    refine ⟨iff_of_true herr ?_, ?_⟩
    · intro ent hmem hrole
      have h0 := (maxScores_eq_zero_iff entries).mp hM (some ent) hmem
      rw [optScore_of_assistant ent hrole] at h0
      exact h0
    · intro t ht
      rw [herr] at ht
      exact Except.noConfusion ht
  · have hpos : 0 < maxScores entries := Nat.pos_of_ne_zero hM
    obtain ⟨l1, e, l2, hsplit, hscore, hplan, hlast⟩ := hsel ⟨Nat.zero_le _, hpos⟩
    have hepos : 0 < optScore e := by rw [hscore]; exact hpos
    obtain ⟨ent, rfl, hrole, hcontent, hescore, hne⟩ := optScore_pos_structure e hepos
    have h1 : (planLoop [] 0 entries).1 = extractContentString ent.content := by
      rw [hplan, hcontent]
    have hok : extractPlanFromTranscript entries =
        Except.ok (extractContentString ent.content) := by
      simp [extractPlanFromTranscript, h1, hne]
    refine ⟨iff_of_false (by rw [hok]; exact fun h => Except.noConfusion h) ?_, ?_⟩
    · intro hall
      have h0 := hall ent
        (by rw [hsplit]; exact List.mem_append_right _ (List.mem_cons_self _ _)) hrole
      rw [← hescore, hscore] at h0
      omega
    · intro t ht
      rw [hok] at ht
      injection ht with ht
      refine ⟨l1, ent, l2, hsplit, hrole, ht, ?_, ?_, ?_⟩
      · rw [← ht, ← hescore, hscore]
        exact hpos
      · intro ent2 hmem hrole2
        have hb := optScore_le_maxScores entries (some ent2) hmem
        rw [optScore_of_assistant ent2 hrole2] at hb
        rw [← ht, ← hescore, hscore]
        exact hb
      · intro ent2 hmem hrole2
        have hb := hlast (some ent2) hmem
        rw [optScore_of_assistant ent2 hrole2] at hb
        rw [← ht, ← hescore, hscore]
        exact hb

/-- C10: content extraction is total and degrades to the empty string —
a JSON content value that is neither a string nor an array yields `""`,
an array none of whose elements is an object with a string-valued
`"text"` field yields `""`, and the plan score of that empty result
is 0; no content shape is rejected. -/
theorem C10_content_extraction_total (v : JsonVal) :
    ((∀ s, v ≠ JsonVal.str s) → (∀ l, v ≠ JsonVal.arr l) → extractContentString v = []) ∧
    (∀ l, v = JsonVal.arr l → (∀ item ∈ l, textOf item = none) →
      extractContentString v = []) ∧
    (extractContentString v = [] → scorePlan (extractContentString v) = 0) := by
  refine ⟨?_, ?_, ?_⟩
  · intro hs ha
    cases v with
    | str s => exact absurd rfl (hs s)
    | arr l => exact absurd rfl (ha l)
    | num n => rfl
    | boolV b => rfl
    | null => rfl
    | obj fields => rfl
  · intro l hv hnone
    rw [hv]
    show List.intercalate (strL "\n") (l.filterMap textOf) = []
    rw [List.filterMap_eq_nil_iff.mpr hnone]
    rfl
  · intro h
    rw [h]
    rfl
